import Mathlib

/-!
Shallow embedding of the `benchlib` micro-benchmark harness
(`collector/benchlib/src/benchmark.rs` and
`collector/benchlib/src/measure/perf_counter/unix.rs`).

Pure Rust functions become Lean functions; effectful code (perf-counter
syscalls, the clock, stdout) is modelled by explicit outcome parameters and
an event trace recording the order of the observable operations.
-/

namespace Benchlib

/-- One measurement sample, mirroring `BenchmarkStats` from
`comm::messages` as used in `unix.rs` (five u64 counter deltas plus a
wall-clock duration; durations are modelled as natural numbers of
nanoseconds). -/
structure BenchmarkStats where
  cycles : Nat
  instructions : Nat
  branch_misses : Nat
  cache_misses : Nat
  cache_references : Nat
  wall_time : Nat
  deriving Repr, DecidableEq

/-- Mirrors `passes_filter` from `benchmark.rs` (lines 122-129): literal
prefix matching against optional exclude/include flags, with the same
argument order as the source. -/
def passes_filter (name : String) (exclude : Option String) (incl : Option String) : Bool :=
  match exclude, incl with
  | some exclude, some incl => name.startsWith incl && !(name.startsWith exclude)
  | none, some incl => name.startsWith incl
  | some exclude, none => !(name.startsWith exclude)
  | none, none => true

/-- Effects performed by the optimization barrier on the underlying memory:
a volatile read of the argument, and suppression of the argument's automatic
cleanup (`mem::forget`). -/
inductive MemEffect where
  | volatileRead
  | forgetDrop
  deriving Repr, DecidableEq

/-- Value-level semantics of `std::ptr::read_volatile(&dummy)`: returns the
bitwise copy of the value (at the value level, the copy equals the value)
and records that a volatile read occurred. -/
def read_volatile {α : Type} (dummy : α) : α × List MemEffect :=
  (dummy, [MemEffect.volatileRead])

/-- Value-level semantics of `std::mem::forget(dummy)`: consumes the value
and suppresses its destructor, recording that cleanup was skipped. -/
def mem_forget {α : Type} (_dummy : α) : List MemEffect :=
  [MemEffect.forgetDrop]

/-- Mirrors `black_box` from `benchmark.rs` (lines 132-138): volatile read
of the argument, then `mem::forget` of the original binding, returning the
read copy.  The second component is the trace of memory effects. -/
def black_box {α : Type} (dummy : α) : α × List MemEffect :=
  let ret := read_volatile dummy
  let eff := mem_forget dummy
  (ret.1, ret.2 ++ eff)

/-! ### Registry and suite driver (`benchmark.rs`)

A registered benchmark's type-erased wrapper `Box<dyn Fn() -> anyhow::Result<BenchmarkStats>>`
is modelled as an `Engine`: a function from the call number (how many times
the wrapper has been invoked before, i.e. the iteration index) to the
outcome of that invocation.  The `HashMap` registry is modelled as an
association list; its (nondeterministic) iteration order is the list order,
so properties about "any iteration order" quantify over permutations. -/

/-- Model of the type-erased benchmark wrapper: outcome of its `k`-th call. -/
abbrev Engine := Nat → Except String BenchmarkStats

/-- Model of `BenchmarkMap = HashMap<&str, BenchmarkWrapper>`: an
association list in the map's iteration order. -/
abbrev BenchmarkMap := List (String × Engine)

/-- Mirrors `BenchmarkArgs` from the CLI boundary as consumed by
`run_benchmark`: iteration count and the optional include/exclude prefixes. -/
structure BenchmarkArgs where
  iterations : Nat
  incl : Option String
  exclude : Option String

/-- Observable events of the suite driver: each invocation of a benchmark's
measurement wrapper (`(def.func)()`), and each `output_message` of a
`BenchmarkMessage::Result` carrying a name and its stats list. -/
inductive RunEvent where
  | engineCall (name : String) (i : Nat)
  | result (name : String) (stats : List BenchmarkStats)
  deriving Repr, DecidableEq

/-- Mirrors `BenchmarkSuite::register` (lines 36-49): insert into the map;
if the name was already present, panic (modelled as `Except.error`) with the
message from the source. -/
def register (m : BenchmarkMap) (name : String) (f : Engine) :
    Except String BenchmarkMap :=
  if (m.map Prod.fst).contains name then
    Except.error ("Benchmark " ++ name ++ " was registered twice")
  else
    Except.ok (m ++ [(name, f)])

/-- The registration phase of `benchmark_suite`: `define_func(&mut suite)`
performs a sequence of `register` calls before `suite.run()` is reached.
A panic in any `register` aborts the process there. -/
def build_registry_go (acc : BenchmarkMap) : List (String × Engine) → Except String BenchmarkMap
  | [] => Except.ok acc
  | (n, f) :: rest =>
    match register acc n f with
    | Except.error e => Except.error e
    | Except.ok acc2 => build_registry_go acc2 rest

/-- Builds the registry from an empty map by registering each definition in
order, as `benchmark_suite`'s `define_func` does. -/
def build_registry (regs : List (String × Engine)) : Except String BenchmarkMap :=
  build_registry_go [] regs

/-- Mirrors `list_benchmarks` (lines 68-73): collect `into_keys()` of the
map — in its iteration order, with no sorting — and serialize the list. -/
def list_benchmarks (benchmarks : BenchmarkMap) : List String :=
  benchmarks.map Prod.fst

/-- The inner iteration loop of `run_benchmark` (lines 85-90): starting at
call number `i`, perform `n` calls of the wrapper, stopping at the first
error (`?` propagates it), collecting stats in iteration order.  Returns the
outcome and the trace of wrapper invocations. -/
def run_iters (f : Engine) (name : String) (i : Nat) :
    Nat → Except String (List BenchmarkStats) × List RunEvent
  | 0 => (Except.ok [], [])
  | Nat.succ n =>
    match f i with
    | Except.error e => (Except.error e, [RunEvent.engineCall name i])
    | Except.ok s =>
      let rest := run_iters f name (i + 1) n
      (rest.1.map (fun l => s :: l), RunEvent.engineCall name i :: rest.2)

/-- The outer loop of `run_benchmark` (lines 84-98): for each selected item
in order, run all iterations; on success emit one `Result` message with the
collected stats, then continue; on error propagate immediately. -/
def run_items (iterations : Nat) : List (String × Engine) → Except String Unit × List RunEvent
  | [] => (Except.ok (), [])
  | (name, f) :: rest =>
    match run_iters f name 0 iterations with
    | (Except.error e, evs) => (Except.error e, evs)
    | (Except.ok stats, evs) =>
      let r := run_items iterations rest
      (r.1, evs ++ RunEvent.result name stats :: r.2)

/-- Model of `items.sort_unstable_by_key(|item| item.0)`: sort the selected
items by name, ascending. -/
def sort_items (l : List (String × Engine)) : List (String × Engine) :=
  List.insertionSort (fun a b => a.1 ≤ b.1) l

/-- Mirrors `run_benchmark` (lines 75-101): filter the map's entries through
`passes_filter`, sort them by name, then run the iteration loops, streaming
one result message per benchmark. -/
def run_benchmark (args : BenchmarkArgs) (benchmarks : BenchmarkMap) :
    Except String Unit × List RunEvent :=
  let items := sort_items
    (benchmarks.filter (fun p => passes_filter p.1 args.exclude args.incl))
  run_items args.iterations items

/-- Mirrors `benchmark_suite` followed by `run` in execute mode: register
all definitions (aborting on a duplicate before anything runs), then run the
selected benchmarks. -/
def benchmark_suite_run (regs : List (String × Engine)) (args : BenchmarkArgs) :
    Except String Unit × List RunEvent :=
  match build_registry regs with
  | Except.error e => (Except.error e, [])
  | Except.ok m => run_benchmark args m

/-! ### Measurement engine (`measure/perf_counter/unix.rs`)

The perf-event syscalls, the clock and the constructor are effectful; the
model takes their outcomes as an environment and records the order of the
observable operations in an event trace. -/

/-- The five hardware events added to the group by `prepare_counters`, in
source order; names match the `Debug` rendering of
`perf_event::events::Hardware`. -/
inductive Hardware where
  | CPU_CYCLES
  | INSTRUCTIONS
  | BRANCH_MISSES
  | CACHE_MISSES
  | CACHE_REFERENCES
  deriving Repr, DecidableEq

/-- The `Debug` rendering of a `Hardware` event, as interpolated by the
`"Could not add counter {:?}: {:?}"` format string. -/
def hardware_debug : Hardware → String
  | Hardware.CPU_CYCLES => "CPU_CYCLES"
  | Hardware.INSTRUCTIONS => "INSTRUCTIONS"
  | Hardware.BRANCH_MISSES => "BRANCH_MISSES"
  | Hardware.CACHE_MISSES => "CACHE_MISSES"
  | Hardware.CACHE_REFERENCES => "CACHE_REFERENCES"

/-- Result of `group.read()`: a `Counts` map, accessed at the five counters
added by `prepare_counters` (`measurement[&counters.cycles]`, ...). -/
structure GroupMeasurement where
  cycles : Nat
  instructions : Nat
  branch_misses : Nat
  cache_misses : Nat
  cache_references : Nat
  deriving Repr, DecidableEq

/-- Outcomes of the effectful operations `benchmark_function` performs, and
the wall-clock duration the second pass observes.  The `debug` rendering of
underlying `perf_event` errors is abstracted as the strings carried by the
`Except.error` values. -/
structure PerfEnv where
  groupNew : Except String Unit
  paranoid : Option String
  build : Hardware → Except String Unit
  enableRet : Except String Unit
  disableRet : Except String Unit
  readRet : Except String GroupMeasurement
  elapsed : Nat

/-- Observable operations of `benchmark_function`, in trace order.
`constructorCall k` is the `k`-th invocation of `benchmark_constructor`;
`execUnit k` executes the unit of work constructed by invocation `k`;
`barrier k` passes that unit's output through `black_box`. -/
inductive PEvent where
  | createGroupCall
  | readParanoid
  | buildCounter (h : Hardware)
  | constructorCall (k : Nat)
  | enable
  | execUnit (k : Nat)
  | disable
  | barrier (k : Nat)
  | inspectEnable
  | readCounters
  | clockStart
  | clockEnd
  deriving Repr, DecidableEq

/-- Mirrors `create_group` (lines 62-78): on failure of `Group::new`, read
`/proc/sys/kernel/perf_event_paranoid` (falling back to `"unknown"`), trim
it, and build the diagnostic message of the source's format string.  The
trace records the group-creation attempt and, only on the failure path, the
read of the paranoid setting. -/
def create_group (env : PerfEnv) : Except String Unit × List PEvent :=
  match env.groupNew with
  | Except.ok _ => (Except.ok (), [PEvent.createGroupCall])
  | Except.error e =>
    let path := "/proc/sys/kernel/perf_event_paranoid"
    let level := (env.paranoid.getD "unknown").trim
    (Except.error ("Cannot create perf_event group (" ++ e ++ "). Current value of "
        ++ path ++ " is " ++ level
        ++ ".\nTry lowering it with \x60sudo bash -c \x27echo -1 > /proc/sys/kernel/perf_event_paranoid\x27\x60."),
      [PEvent.createGroupCall, PEvent.readParanoid])

/-- Mirrors the `add_event` closure in `prepare_counters` (lines 81-87):
build one counter in the group, mapping a build failure to the
`"Could not add counter"` diagnostic naming the event and the cause. -/
def add_event (env : PerfEnv) (h : Hardware) : Except String Unit :=
  match env.build h with
  | Except.ok _ => Except.ok ()
  | Except.error e =>
    Except.error ("Could not add counter " ++ hardware_debug h ++ ": " ++ e)

/-- Sequentially attempt the counter builds of `prepare_counters`, stopping
at the first failure (`?`).  The trace records each attempted counter
build. -/
def prepare_counters_go (env : PerfEnv) : List Hardware → Except String Unit × List PEvent
  | [] => (Except.ok (), [])
  | h :: rest =>
    match add_event env h with
    | Except.error e => (Except.error e, [PEvent.buildCounter h])
    | Except.ok _ =>
      let r := prepare_counters_go env rest
      (r.1, PEvent.buildCounter h :: r.2)

/-- Mirrors `prepare_counters` (lines 80-102): add the five counters in
source order. -/
def prepare_counters (env : PerfEnv) : Except String Unit × List PEvent :=
  prepare_counters_go env
    [Hardware.CPU_CYCLES, Hardware.INSTRUCTIONS, Hardware.BRANCH_MISSES,
     Hardware.CACHE_MISSES, Hardware.CACHE_REFERENCES]

/-- Mirrors `benchmark_function` (lines 18-60): create the group, add the
counters, then the counter pass (construct, enable, execute, disable,
barrier, only now inspect the recorded enable outcome, read), then the
wall-clock pass (construct a second fresh unit, start the clock, execute,
take the elapsed duration, barrier), and combine the five counter deltas
with the elapsed duration into one `BenchmarkStats`. -/
def benchmark_function (env : PerfEnv) : Except String BenchmarkStats × List PEvent :=
  match create_group env with
  | (Except.error e, evs) => (Except.error e, evs)
  | (Except.ok _, evs0) =>
    match prepare_counters env with
    | (Except.error e, evs) => (Except.error e, evs0 ++ evs)
    | (Except.ok _, evs1) =>
      -- Counter pass: let func = benchmark_constructor(); enable; func(); disable.
      let evs2 := evs0 ++ evs1 ++ [PEvent.constructorCall 1, PEvent.enable, PEvent.execUnit 1]
      match env.disableRet with
      | Except.error e => (Except.error e, evs2 ++ [PEvent.disable])
      | Except.ok _ =>
        -- black_box(output); only now check enable_ret.
        let evs3 := evs2 ++ [PEvent.disable, PEvent.barrier 1, PEvent.inspectEnable]
        match env.enableRet with
        | Except.error e => (Except.error e, evs3)
        | Except.ok _ =>
          match env.readRet with
          | Except.error e => (Except.error e, evs3 ++ [PEvent.readCounters])
          | Except.ok measurement =>
            -- Wall-clock pass on a fresh unit of work.
            let evs4 := evs3 ++ [PEvent.readCounters, PEvent.constructorCall 2,
              PEvent.clockStart, PEvent.execUnit 2, PEvent.clockEnd, PEvent.barrier 2]
            (Except.ok
              { cycles := measurement.cycles
                instructions := measurement.instructions
                branch_misses := measurement.branch_misses
                cache_misses := measurement.cache_misses
                cache_references := measurement.cache_references
                wall_time := env.elapsed },
              evs4)

/-- Holds when `sub` occurs as a contiguous substring of `s` (stated on the underlying
character lists). -/
def contains_str (s sub : String) : Prop :=
  ∃ l r : List Char, s.data = l ++ sub.data ++ r

end Benchlib

open Benchlib

/-- A fully successful measurement environment, used as the concrete input
of the witnesses below. -/
def okEnv : PerfEnv where
  groupNew := Except.ok ()
  paranoid := some "2\n"
  build := fun _ => Except.ok ()
  enableRet := Except.ok ()
  disableRet := Except.ok ()
  readRet := Except.ok ⟨100, 200, 3, 4, 5⟩
  elapsed := 42

/-- C1: with every effectful operation succeeding, `benchmark_function`
performs the counter pass first (construct unit 1, enable the group,
execute unit 1, disable the group, barrier, inspect the enable outcome,
read the five counter deltas) and the wall-clock pass second (construct a
fresh unit 2, start the clock, execute unit 2, stop the clock, barrier).
The trace shows the constructor invoked exactly twice (`constructorCall 1`
and `constructorCall 2`, once each) and each constructed unit executed
exactly once (`execUnit 1` in pass 1, `execUnit 2` in pass 2 — no reuse
across passes); the returned `BenchmarkStats` combines the five counter
deltas read in pass 1 with the elapsed duration of pass 2. -/
theorem benchmark_function_two_pass (env : PerfEnv) (m : GroupMeasurement)
    (hg : env.groupNew = Except.ok ())
    (hb : ∀ h, env.build h = Except.ok ())
    (he : env.enableRet = Except.ok ())
    (hd : env.disableRet = Except.ok ())
    (hr : env.readRet = Except.ok m) :
    benchmark_function env =
      (Except.ok
        { cycles := m.cycles
          instructions := m.instructions
          branch_misses := m.branch_misses
          cache_misses := m.cache_misses
          cache_references := m.cache_references
          wall_time := env.elapsed },
       [PEvent.createGroupCall,
        PEvent.buildCounter Hardware.CPU_CYCLES,
        PEvent.buildCounter Hardware.INSTRUCTIONS,
        PEvent.buildCounter Hardware.BRANCH_MISSES,
        PEvent.buildCounter Hardware.CACHE_MISSES,
        PEvent.buildCounter Hardware.CACHE_REFERENCES,
        PEvent.constructorCall 1, PEvent.enable, PEvent.execUnit 1,
        PEvent.disable, PEvent.barrier 1, PEvent.inspectEnable,
        PEvent.readCounters,
        PEvent.constructorCall 2, PEvent.clockStart, PEvent.execUnit 2,
        PEvent.clockEnd, PEvent.barrier 2]) := by
  simp [benchmark_function, create_group, prepare_counters, prepare_counters_go,
    add_event, hg, hb, he, hd, hr]

/-- Witness for C1 at the concrete environment `okEnv`. -/
theorem benchmark_function_two_pass_witness :
    benchmark_function okEnv =
      (Except.ok
        { cycles := 100, instructions := 200, branch_misses := 3,
          cache_misses := 4, cache_references := 5, wall_time := 42 },
       [PEvent.createGroupCall,
        PEvent.buildCounter Hardware.CPU_CYCLES,
        PEvent.buildCounter Hardware.INSTRUCTIONS,
        PEvent.buildCounter Hardware.BRANCH_MISSES,
        PEvent.buildCounter Hardware.CACHE_MISSES,
        PEvent.buildCounter Hardware.CACHE_REFERENCES,
        PEvent.constructorCall 1, PEvent.enable, PEvent.execUnit 1,
        PEvent.disable, PEvent.barrier 1, PEvent.inspectEnable,
        PEvent.readCounters,
        PEvent.constructorCall 2, PEvent.clockStart, PEvent.execUnit 2,
        PEvent.clockEnd, PEvent.barrier 2]) :=
  benchmark_function_two_pass okEnv ⟨100, 200, 3, 4, 5⟩ rfl (fun _ => rfl) rfl rfl rfl

/-- C6: the outcome of `group.enable()` is recorded but not branched on
inside the measured region: whatever that outcome is, the trace runs
construct → enable → execute → disable → barrier → inspect identically
(this common prefix is the first component below, and the successful-enable
trace extends exactly it); only at the inspection point, after the unit has
executed, the group has been disabled and the output has passed the
barrier, does a failed enable turn into an error return. -/
theorem enable_outcome_deferred (env : PerfEnv) (e : String)
    (hg : env.groupNew = Except.ok ())
    (hb : ∀ h, env.build h = Except.ok ())
    (hd : env.disableRet = Except.ok ()) :
    benchmark_function { env with enableRet := Except.error e } =
      (Except.error e,
       [PEvent.createGroupCall,
        PEvent.buildCounter Hardware.CPU_CYCLES,
        PEvent.buildCounter Hardware.INSTRUCTIONS,
        PEvent.buildCounter Hardware.BRANCH_MISSES,
        PEvent.buildCounter Hardware.CACHE_MISSES,
        PEvent.buildCounter Hardware.CACHE_REFERENCES,
        PEvent.constructorCall 1, PEvent.enable, PEvent.execUnit 1,
        PEvent.disable, PEvent.barrier 1, PEvent.inspectEnable]) ∧
    ∃ rest,
      (benchmark_function { env with enableRet := Except.ok () }).2 =
        [PEvent.createGroupCall,
         PEvent.buildCounter Hardware.CPU_CYCLES,
         PEvent.buildCounter Hardware.INSTRUCTIONS,
         PEvent.buildCounter Hardware.BRANCH_MISSES,
         PEvent.buildCounter Hardware.CACHE_MISSES,
         PEvent.buildCounter Hardware.CACHE_REFERENCES,
         PEvent.constructorCall 1, PEvent.enable, PEvent.execUnit 1,
         PEvent.disable, PEvent.barrier 1, PEvent.inspectEnable] ++ rest := by
  constructor
  · simp [benchmark_function, create_group, prepare_counters, prepare_counters_go,
      add_event, hg, hb, hd]
  · cases hread : env.readRet with
    | error er =>
      exact ⟨[PEvent.readCounters], by
        simp [benchmark_function, create_group, prepare_counters, prepare_counters_go,
          add_event, hg, hb, hd, hread]⟩
    | ok m =>
      exact ⟨[PEvent.readCounters, PEvent.constructorCall 2, PEvent.clockStart,
          PEvent.execUnit 2, PEvent.clockEnd, PEvent.barrier 2], by
        simp [benchmark_function, create_group, prepare_counters, prepare_counters_go,
          add_event, hg, hb, hd, hread]⟩

/-- Witness for C6 at the concrete environment `okEnv` and a concrete
enable error. -/
theorem enable_outcome_deferred_witness :
    benchmark_function { okEnv with enableRet := Except.error "EBUSY" } =
      (Except.error "EBUSY",
       [PEvent.createGroupCall,
        PEvent.buildCounter Hardware.CPU_CYCLES,
        PEvent.buildCounter Hardware.INSTRUCTIONS,
        PEvent.buildCounter Hardware.BRANCH_MISSES,
        PEvent.buildCounter Hardware.CACHE_MISSES,
        PEvent.buildCounter Hardware.CACHE_REFERENCES,
        PEvent.constructorCall 1, PEvent.enable, PEvent.execUnit 1,
        PEvent.disable, PEvent.barrier 1, PEvent.inspectEnable]) ∧
    ∃ rest,
      (benchmark_function { okEnv with enableRet := Except.ok () }).2 =
        [PEvent.createGroupCall,
         PEvent.buildCounter Hardware.CPU_CYCLES,
         PEvent.buildCounter Hardware.INSTRUCTIONS,
         PEvent.buildCounter Hardware.BRANCH_MISSES,
         PEvent.buildCounter Hardware.CACHE_MISSES,
         PEvent.buildCounter Hardware.CACHE_REFERENCES,
         PEvent.constructorCall 1, PEvent.enable, PEvent.execUnit 1,
         PEvent.disable, PEvent.barrier 1, PEvent.inspectEnable] ++ rest :=
  enable_outcome_deferred okEnv "EBUSY" rfl (fun _ => rfl) rfl

/-- Environment in which `Group::new` fails, used as the concrete input of
the C9 witness. -/
def failEnv : PerfEnv :=
  { okEnv with groupNew := Except.error "EACCES", paranoid := some " 2\n" }

/-- C9: when group creation fails, the returned diagnostic contains the
underlying failure, the (trimmed) current value of
`/proc/sys/kernel/perf_event_paranoid` — `"unknown"` when it cannot be
read, covered by the `getD` default — and remediation text, and the
access-control setting is read exactly on this failure path; on the success
path the setting is not read and its value never changes the result.  When
an individual counter's build fails, the error names the counter's hardware
event and the underlying cause. -/
theorem counter_error_diagnostics (env : PerfEnv) (e : String) :
    (env.groupNew = Except.error e →
      ∃ msg, (create_group env).1 = Except.error msg ∧
        contains_str msg e ∧
        contains_str msg ((env.paranoid.getD "unknown").trim) ∧
        contains_str msg "Try lowering it with" ∧
        (create_group env).2 = [PEvent.createGroupCall, PEvent.readParanoid]) ∧
    (env.groupNew = Except.ok () →
      ∀ p', create_group { env with paranoid := p' } =
        (Except.ok (), [PEvent.createGroupCall])) ∧
    (∀ hw, env.build hw = Except.error e →
      ∃ msg, add_event env hw = Except.error msg ∧
        contains_str msg (hardware_debug hw) ∧
        contains_str msg e) := by
  refine ⟨fun h => ?_, fun h p' => ?_, fun hw hb => ?_⟩
  · simp only [create_group, h]
    refine ⟨_, rfl, ?_, ?_, ?_, trivial⟩
    · exact ⟨"Cannot create perf_event group (".data,
        ("). Current value of " ++ "/proc/sys/kernel/perf_event_paranoid" ++ " is "
          ++ (env.paranoid.getD "unknown").trim
          ++ ".\nTry lowering it with \x60sudo bash -c \x27echo -1 > /proc/sys/kernel/perf_event_paranoid\x27\x60.").data,
        by simp [String.data_append]⟩
    · exact ⟨("Cannot create perf_event group (" ++ e ++ "). Current value of "
          ++ "/proc/sys/kernel/perf_event_paranoid" ++ " is ").data,
        ".\nTry lowering it with \x60sudo bash -c \x27echo -1 > /proc/sys/kernel/perf_event_paranoid\x27\x60.".data,
        by simp [String.data_append]⟩
    · exact ⟨("Cannot create perf_event group (" ++ e ++ "). Current value of "
          ++ "/proc/sys/kernel/perf_event_paranoid" ++ " is "
          ++ (env.paranoid.getD "unknown").trim ++ ".\n").data,
        " \x60sudo bash -c \x27echo -1 > /proc/sys/kernel/perf_event_paranoid\x27\x60.".data,
        by simp [String.data_append]⟩
  · simp [create_group, h]
  · simp only [add_event, hb]
    refine ⟨_, rfl, ?_, ?_⟩
    · exact ⟨"Could not add counter ".data, (": " ++ e).data, by simp [String.data_append]⟩
    · exact ⟨("Could not add counter " ++ hardware_debug hw ++ ": ").data, [],
        by simp [String.data_append]⟩

/-- Witness for C9: the group-creation branch at the concrete environment
`failEnv`, and the counter branch at a concrete build failure. -/
theorem counter_error_diagnostics_witness :
    (∃ msg, (create_group failEnv).1 = Except.error msg ∧
      contains_str msg "EACCES" ∧
      contains_str msg ((failEnv.paranoid.getD "unknown").trim) ∧
      contains_str msg "Try lowering it with" ∧
      (create_group failEnv).2 = [PEvent.createGroupCall, PEvent.readParanoid]) ∧
    (∃ msg, add_event { okEnv with build := fun _ => Except.error "ENOENT" }
        Hardware.CACHE_MISSES = Except.error msg ∧
      contains_str msg (hardware_debug Hardware.CACHE_MISSES) ∧
      contains_str msg "ENOENT") :=
  ⟨(counter_error_diagnostics failEnv "EACCES").1 rfl,
   (counter_error_diagnostics { okEnv with build := fun _ => Except.error "ENOENT" }
      "ENOENT").2.2 Hardware.CACHE_MISSES rfl⟩

/-- An engine that is never invoked by the enumeration path. -/
def dummyEngine : Engine := fun _ => Except.error "unused"

/-- Registry whose iteration order is `b, a, c`. -/
def mapBAC : BenchmarkMap := [("b", dummyEngine), ("a", dummyEngine), ("c", dummyEngine)]

/-- Registry with the same entries, iteration order `a, b, c`. -/
def mapABC : BenchmarkMap := [("a", dummyEngine), ("b", dummyEngine), ("c", dummyEngine)]

/-- Counterexample to C2: `list_benchmarks` performs no sorting, so two
iteration orders of the same registered names (the hash map's iteration
order is not specified) enumerate in different orders, and the names
`b, a, c` are not reported as `["a", "b", "c"]`. -/
theorem list_benchmarks_order_counterexample :
    (list_benchmarks mapBAC).Perm (list_benchmarks mapABC) ∧
    list_benchmarks mapBAC ≠ list_benchmarks mapABC ∧
    list_benchmarks mapBAC ≠ ["a", "b", "c"] := by
  refine ⟨?_, ?_, ?_⟩ <;> decide

/-- C2 amended: enumeration mode serializes exactly the registered names —
the output is the map's `into_keys` sequence, a permutation-invariant
multiset of the registered names — but in the map's iteration order, with
no sorting, so the order is only as reproducible as that iteration order. -/
theorem list_benchmarks_iteration_order (m : BenchmarkMap) :
    list_benchmarks m = m.map Prod.fst ∧
    ∀ m' : BenchmarkMap, m'.Perm m →
      (list_benchmarks m').Perm (list_benchmarks m) :=
  ⟨rfl, fun _ h => h.map Prod.fst⟩

/-- Witness for the amended C2 at the concrete registries above. -/
theorem list_benchmarks_iteration_order_witness :
    list_benchmarks mapBAC = mapBAC.map Prod.fst ∧
    (list_benchmarks mapABC).Perm (list_benchmarks mapBAC) :=
  ⟨(list_benchmarks_iteration_order mapBAC).1,
   (list_benchmarks_iteration_order mapBAC).2 mapABC
     (List.Perm.swap ("b", dummyEngine) ("a", dummyEngine) [("c", dummyEngine)])⟩

/-- Registering over a prefix of definitions, then appending more, registers
the prefix first: `build_registry_go` distributes over list append. -/
theorem build_registry_go_append (l1 l2 : List (String × Engine)) : ∀ acc,
    build_registry_go acc (l1 ++ l2) =
      match build_registry_go acc l1 with
      | Except.error e => Except.error e
      | Except.ok m => build_registry_go m l2 := by
  induction l1 with
  | nil => intro acc; rfl
  | cons p rest ih =>
    intro acc
    obtain ⟨n, f⟩ := p
    simp only [List.cons_append, build_registry_go]
    cases register acc n f with
    | error e => rfl
    | ok acc2 => exact ih acc2

/-- C5: registering a name already present in the registry is a fatal
error: `register` aborts (panics) with a descriptive message naming the
benchmark, and a suite whose definitions contain such a duplicate aborts
during the registration phase with that message and an empty run trace —
no benchmark executes. -/
theorem register_duplicate_aborts (regs1 regs2 : List (String × Engine))
    (m : BenchmarkMap) (n : String) (f : Engine) (args : BenchmarkArgs)
    (hbuild : build_registry regs1 = Except.ok m)
    (hmem : n ∈ m.map Prod.fst) :
    register m n f = Except.error ("Benchmark " ++ n ++ " was registered twice") ∧
    benchmark_suite_run (regs1 ++ (n, f) :: regs2) args =
      (Except.error ("Benchmark " ++ n ++ " was registered twice"), []) := by
  have hc : (m.map Prod.fst).contains n = true := List.elem_iff.mpr hmem
  have hreg : register m n f = Except.error ("Benchmark " ++ n ++ " was registered twice") := by
    unfold register
    rw [hc, if_pos rfl]
  refine ⟨hreg, ?_⟩
  have hb : build_registry (regs1 ++ (n, f) :: regs2) =
      Except.error ("Benchmark " ++ n ++ " was registered twice") := by
    unfold build_registry at hbuild ⊢
    rw [build_registry_go_append, hbuild]
    simp [build_registry_go, hreg]
  simp [benchmark_suite_run, hb]

/-- Witness for C5: a suite registering `a`, then `a` again, then `c`,
aborts at the duplicate with the message naming `a`, before any benchmark
runs. -/
theorem register_duplicate_aborts_witness :
    register [("a", dummyEngine)] "a" dummyEngine =
      Except.error ("Benchmark " ++ "a" ++ " was registered twice") ∧
    benchmark_suite_run ([("a", dummyEngine)] ++ ("a", dummyEngine) :: [("c", dummyEngine)])
      { iterations := 2, incl := none, exclude := none } =
      (Except.error ("Benchmark " ++ "a" ++ " was registered twice"), []) :=
  register_duplicate_aborts [("a", dummyEngine)] [("c", dummyEngine)]
    [("a", dummyEngine)] "a" dummyEngine
    { iterations := 2, incl := none, exclude := none } rfl (by simp)

/-- Extracts the wrapper-invocation events from a suite trace. -/
def call_of : RunEvent → Option (String × Nat)
  | RunEvent.engineCall n i => some (n, i)
  | RunEvent.result _ _ => none

instance : IsTotal (String × Engine) (fun a c => a.1 ≤ c.1) :=
  ⟨fun a c => le_total a.1 c.1⟩

instance : IsTrans (String × Engine) (fun a c => a.1 ≤ c.1) :=
  ⟨fun _ _ _ h1 h2 => le_trans h1 h2⟩

/-- Names of the filtered entries are the filtered names. -/
theorem map_fst_filter (pf : String → Bool) (l : List (String × Engine)) :
    (l.filter (fun p => pf p.1)).map Prod.fst = (l.map Prod.fst).filter pf := by
  induction l with
  | nil => rfl
  | cons q l ih =>
    by_cases hq : pf q.1 <;> simp [List.filter_cons, hq, ih]

/-- When every remaining call succeeds, the iteration loop collects the
stats in call order and records one invocation event per call. -/
theorem run_iters_ok (f : Engine) (name : String) (v : Nat → BenchmarkStats) :
    ∀ n k : Nat, (∀ i, i < n → f (k + i) = Except.ok (v (k + i))) →
    run_iters f name k n =
      (Except.ok ((List.range' k n).map v),
       (List.range' k n).map (RunEvent.engineCall name)) := by
  intro n
  induction n with
  | zero => intro k _; simp [run_iters]
  | succ n ih =>
    intro k h
    have h0 : f k = Except.ok (v k) := by simpa using h 0 (Nat.succ_pos n)
    have hrest : run_iters f name (k + 1) n =
        (Except.ok ((List.range' (k + 1) n).map v),
         (List.range' (k + 1) n).map (RunEvent.engineCall name)) := by
      apply ih
      intro i hi
      have hh := h (i + 1) (Nat.succ_lt_succ hi)
      rwa [show k + (i + 1) = k + 1 + i by omega] at hh
    simp [run_iters, h0, hrest, List.range'_succ, Except.map]

/-- When the `j`-th call fails after `j` successes, the iteration loop stops
there, propagating the error; the trace holds exactly the `j + 1` calls that
were made. -/
theorem run_iters_fail (f : Engine) (name : String) (e : String) :
    ∀ n j k : Nat, (∀ i, i < j → ∃ s, f (k + i) = Except.ok s) →
      f (k + j) = Except.error e → j < n →
    run_iters f name k n =
      (Except.error e, (List.range' k (j + 1)).map (RunEvent.engineCall name)) := by
  intro n
  induction n with
  | zero => intro j k _ _ hj; exact absurd hj (Nat.not_lt_zero j)
  | succ n ih =>
    intro j k hok herr hj
    cases j with
    | zero =>
      have h0 : f k = Except.error e := by simpa using herr
      simp [run_iters, h0, List.range'_succ]
    | succ j' =>
      obtain ⟨s, hs⟩ := hok 0 (Nat.succ_pos j')
      have h0 : f k = Except.ok s := by simpa using hs
      have hrest := ih j' (k + 1)
        (fun i hi => by
          obtain ⟨s', hs'⟩ := hok (i + 1) (Nat.succ_lt_succ hi)
          exact ⟨s', by rwa [show k + (i + 1) = k + 1 + i by omega] at hs'⟩)
        (by rwa [show k + (j' + 1) = k + 1 + j' by omega] at herr)
        (Nat.lt_of_succ_lt_succ hj)
      simp [run_iters, h0, hrest, List.range'_succ, Except.map]

/-- Running a list of items whose engines all succeed, followed by more
items, produces one full block (all invocation events, then the one result
message) per leading item, in list order, before anything of the rest. -/
theorem run_items_append_ok (n : Nat) (v : String → Nat → BenchmarkStats) :
    ∀ l1 rest : List (String × Engine),
      (∀ p ∈ l1, ∀ i, i < n → p.2 i = Except.ok (v p.1 i)) →
    run_items n (l1 ++ rest) =
      ((run_items n rest).1,
        l1.flatMap (fun p => (List.range n).map (RunEvent.engineCall p.1)
          ++ [RunEvent.result p.1 ((List.range n).map (v p.1))])
        ++ (run_items n rest).2) := by
  intro l1
  induction l1 with
  | nil => intro rest _; simp
  | cons p l ih =>
    intro rest h
    obtain ⟨name, f⟩ := p
    have hitr : run_iters f name 0 n =
        (Except.ok ((List.range' 0 n).map (v name)),
         (List.range' 0 n).map (RunEvent.engineCall name)) :=
      run_iters_ok f name (v name) n 0
        (fun i hi => by simpa using h (name, f) (List.mem_cons_self _ _) i hi)
    rw [← List.range_eq_range'] at hitr
    have hrec := ih rest (fun q hq i hi => h q (List.mem_cons_of_mem _ hq) i hi)
    simp [run_items, hitr, hrec, List.append_assoc]

/-- Flat-mapping over the first projections equals flat-mapping over the pairs. -/
theorem flatMap_map_fst {β : Type} (l : List (String × Engine)) (g : String → List β) :
    (l.map Prod.fst).flatMap g = l.flatMap (fun p => g p.1) := by
  induction l with
  | nil => rfl
  | cons p l ih => simp [ih]

/-- Restricting a trace of full per-benchmark blocks to the invocation
events yields the per-benchmark call sequences. -/
theorem filterMap_call_of_blocks (n : Nat) (v : String → Nat → BenchmarkStats) :
    ∀ items : List (String × Engine),
    (items.flatMap (fun p => (List.range n).map (RunEvent.engineCall p.1)
        ++ [RunEvent.result p.1 ((List.range n).map (v p.1))])).filterMap call_of
    = (items.map Prod.fst).flatMap (fun nm => (List.range n).map (fun i => (nm, i))) := by
  intro items
  induction items with
  | nil => rfl
  | cons p l ih =>
    simp only [List.flatMap_cons, List.map_cons, List.filterMap_append, ih]
    congr 1
    simp [List.filterMap_append, List.filterMap_map, call_of, Function.comp]
    exact (List.filterMap_eq_map fun i => (p.1, i)) ▸ rfl

/-- In a name-sorted, name-unique item list, a member splits the list into
strictly-smaller names before it and strictly-larger names after it. -/
theorem sorted_nodup_split (items : List (String × Engine)) (b : String) (fb : Engine)
    (hs : items.Pairwise (fun a c => a.1 ≤ c.1))
    (hnd : (items.map Prod.fst).Nodup)
    (hmem : (b, fb) ∈ items) :
    ∃ l1 l2, items = l1 ++ (b, fb) :: l2 ∧
      (∀ p ∈ l1, p.1 < b) ∧ (∀ p ∈ l2, b < p.1) := by
  obtain ⟨l1, l2, rfl⟩ := List.append_of_mem hmem
  have hs' := List.pairwise_append.mp hs
  have hnd' : ((l1.map Prod.fst) ++ b :: l2.map Prod.fst).Nodup := by
    simpa using hnd
  have hnd'' := List.nodup_append.mp hnd'
  refine ⟨l1, l2, rfl, ?_, ?_⟩
  · intro p hp
    have hle : p.1 ≤ b := hs'.2.2 p hp (b, fb) (List.mem_cons_self _ _)
    have hne : p.1 ≠ b := by
      intro hEq
      exact hnd''.2.2 (List.mem_map_of_mem Prod.fst hp)
        (hEq ▸ List.mem_cons_self b (l2.map Prod.fst))
    exact lt_of_le_of_ne hle hne
  · intro p hp
    have hle : b ≤ p.1 := (List.pairwise_cons.mp hs'.2.1).1 p hp
    have hne : b ≠ p.1 := by
      intro hEq
      exact (List.nodup_cons.mp hnd''.2.1).1
        (hEq ▸ List.mem_map_of_mem Prod.fst hp)
    exact lt_of_le_of_ne hle hne

/-- C4: in execute mode the suite driver runs exactly the registered
benchmarks whose name passes the filter — the executed names `L` are a
permutation of the filtered registered names — in ascending sorted name
order, and for each selected benchmark it invokes the measurement engine
exactly `iterations` times sequentially (calls `(nm, 0), …, (nm, n-1)`)
before the next benchmark's first call. -/
theorem run_benchmark_sorted_execution (args : BenchmarkArgs) (benchmarks : BenchmarkMap)
    (v : String → Nat → BenchmarkStats)
    (hval : ∀ p ∈ benchmarks, ∀ i, i < args.iterations → p.2 i = Except.ok (v p.1 i)) :
    ∃ L : List String,
      L.Perm ((benchmarks.map Prod.fst).filter
        (fun nm => passes_filter nm args.exclude args.incl)) ∧
      L.Sorted (fun a c => a ≤ c) ∧
      (run_benchmark args benchmarks).1 = Except.ok () ∧
      (run_benchmark args benchmarks).2.filterMap call_of
        = L.flatMap (fun nm => (List.range args.iterations).map (fun i => (nm, i))) := by
  classical
  set filtered := benchmarks.filter (fun p => passes_filter p.1 args.exclude args.incl)
    with hfilt
  set items := sort_items filtered with hitems
  have hperm : items.Perm filtered := List.perm_insertionSort _ filtered
  have hmapfst : filtered.map Prod.fst
      = (benchmarks.map Prod.fst).filter (fun nm => passes_filter nm args.exclude args.incl) :=
    map_fst_filter (fun nm => passes_filter nm args.exclude args.incl) benchmarks
  have hrun : run_benchmark args benchmarks = run_items args.iterations items := rfl
  have hvalItems : ∀ p ∈ items, ∀ i, i < args.iterations → p.2 i = Except.ok (v p.1 i) := by
    intro p hp i hi
    exact hval p (List.mem_of_mem_filter (hperm.mem_iff.mp hp)) i hi
  have htrace := run_items_append_ok args.iterations v items [] hvalItems
  rw [List.append_nil] at htrace
  refine ⟨items.map Prod.fst, ?_, ?_, ?_, ?_⟩
  · exact hmapfst ▸ hperm.map Prod.fst
  · exact List.Pairwise.map Prod.fst (fun a c h => h)
      (List.sorted_insertionSort _ filtered)
  · rw [hrun, htrace]; rfl
  · rw [hrun, htrace]
    simpa [run_items] using filterMap_call_of_blocks args.iterations v items

/-- A fixed sample measurement used by the concrete witness suites. -/
def sampleStats : BenchmarkStats := ⟨10, 20, 3, 4, 5, 6⟩

/-- An engine that succeeds on every call. -/
def okEngine : Engine := fun _ => Except.ok sampleStats

/-- A two-benchmark registry whose iteration order (`b`, then `a`) is not
sorted. -/
def suiteBA : BenchmarkMap := [("b", okEngine), ("a", okEngine)]

/-- Two iterations, no filters. -/
def args2 : BenchmarkArgs := { iterations := 2, incl := none, exclude := none }

/-- Witness for C4: the concrete registry `suiteBA` under `args2`. -/
theorem run_benchmark_sorted_execution_witness :
    ∃ L : List String,
      L.Perm ((suiteBA.map Prod.fst).filter
        (fun nm => passes_filter nm args2.exclude args2.incl)) ∧
      L.Sorted (fun a c => a ≤ c) ∧
      (run_benchmark args2 suiteBA).1 = Except.ok () ∧
      (run_benchmark args2 suiteBA).2.filterMap call_of
        = L.flatMap (fun nm => (List.range args2.iterations).map (fun i => (nm, i))) :=
  run_benchmark_sorted_execution args2 suiteBA (fun _ _ => sampleStats)
    (by
      intro p hp i hi
      simp only [suiteBA, List.mem_cons, List.not_mem_nil, or_false] at hp
      rcases hp with rfl | rfl <;> rfl)

/-- C7: under a unique-name registry with all engines succeeding, the full
trace is one block per selected benchmark, in sorted name order: all of
that benchmark's `iterations` wrapper invocations, then exactly one result
message carrying the benchmark's name and its `iterations` stats entries in
iteration order — emitted before the next benchmark's first invocation, so
results stream per-benchmark rather than being buffered for the suite. -/
theorem run_benchmark_streams_per_benchmark (args : BenchmarkArgs) (benchmarks : BenchmarkMap)
    (v : String → Nat → BenchmarkStats)
    (hnd : (benchmarks.map Prod.fst).Nodup)
    (hval : ∀ p ∈ benchmarks, ∀ i, i < args.iterations → p.2 i = Except.ok (v p.1 i)) :
    ∃ L : List String,
      L.Perm ((benchmarks.map Prod.fst).filter
        (fun nm => passes_filter nm args.exclude args.incl)) ∧
      L.Sorted (fun a c => a ≤ c) ∧
      L.Nodup ∧
      (run_benchmark args benchmarks).2
        = L.flatMap (fun nm => (List.range args.iterations).map (RunEvent.engineCall nm)
            ++ [RunEvent.result nm ((List.range args.iterations).map (v nm))]) ∧
      (∀ nm ∈ L, ((List.range args.iterations).map (v nm)).length = args.iterations) := by
  classical
  set filtered := benchmarks.filter (fun p => passes_filter p.1 args.exclude args.incl)
    with hfilt
  set items := sort_items filtered with hitems
  have hperm : items.Perm filtered := List.perm_insertionSort _ filtered
  have hmapfst : filtered.map Prod.fst
      = (benchmarks.map Prod.fst).filter (fun nm => passes_filter nm args.exclude args.incl) :=
    map_fst_filter (fun nm => passes_filter nm args.exclude args.incl) benchmarks
  have hrun : run_benchmark args benchmarks = run_items args.iterations items := rfl
  have hvalItems : ∀ p ∈ items, ∀ i, i < args.iterations → p.2 i = Except.ok (v p.1 i) := by
    intro p hp i hi
    exact hval p (List.mem_of_mem_filter (hperm.mem_iff.mp hp)) i hi
  have htrace := run_items_append_ok args.iterations v items [] hvalItems
  rw [List.append_nil] at htrace
  refine ⟨items.map Prod.fst, hmapfst ▸ hperm.map Prod.fst,
    List.Pairwise.map Prod.fst (fun a c h => h) (List.sorted_insertionSort _ filtered),
    ?_, ?_, ?_⟩
  · have h2 : (filtered.map Prod.fst).Nodup := by
      rw [hmapfst]; exact hnd.filter _
    exact ((hperm.map Prod.fst).nodup_iff).mpr h2
  · rw [hrun, htrace, flatMap_map_fst]
    simp [run_items]
  · intro nm _
    simp

/-- Witness for C7: the concrete registry `suiteBA` under `args2`. -/
theorem run_benchmark_streams_per_benchmark_witness :
    ∃ L : List String,
      L.Perm ((suiteBA.map Prod.fst).filter
        (fun nm => passes_filter nm args2.exclude args2.incl)) ∧
      L.Sorted (fun a c => a ≤ c) ∧
      L.Nodup ∧
      (run_benchmark args2 suiteBA).2
        = L.flatMap (fun nm => (List.range args2.iterations).map (RunEvent.engineCall nm)
            ++ [RunEvent.result nm ((List.range args2.iterations).map
                (fun _ => sampleStats))]) ∧
      (∀ nm ∈ L, ((List.range args2.iterations).map
        ((fun (_ : String) (_ : Nat) => sampleStats) nm)).length = args2.iterations) :=
  run_benchmark_streams_per_benchmark args2 suiteBA (fun _ _ => sampleStats)
    (by decide)
    (by
      intro p hp i hi
      simp only [suiteBA, List.mem_cons, List.not_mem_nil, or_false] at hp
      rcases hp with rfl | rfl <;> rfl)

/-- C8: if the measurement engine fails on an iteration of a selected
benchmark (after its earlier iterations and all earlier-named selected
benchmarks succeeded), the whole run aborts: the error propagates as the
run's outcome, no result message for the failing benchmark is ever emitted,
and no later-named benchmark is invoked or reported. -/
theorem run_benchmark_failure_aborts (args : BenchmarkArgs) (benchmarks : BenchmarkMap)
    (v : String → Nat → BenchmarkStats) (b : String) (fb : Engine) (j : Nat) (e : String)
    (hnd : (benchmarks.map Prod.fst).Nodup)
    (hmem : (b, fb) ∈ benchmarks)
    (hpass : passes_filter b args.exclude args.incl = true)
    (hj : j < args.iterations)
    (hfb_ok : ∀ i, i < j → fb i = Except.ok (v b i))
    (hfb_err : fb j = Except.error e)
    (hprev : ∀ p ∈ benchmarks, p.1 < b →
      passes_filter p.1 args.exclude args.incl = true →
      ∀ i, i < args.iterations → p.2 i = Except.ok (v p.1 i)) :
    (run_benchmark args benchmarks).1 = Except.error e ∧
    (∀ s, RunEvent.result b s ∉ (run_benchmark args benchmarks).2) ∧
    (∀ nm, b < nm → ∀ i, RunEvent.engineCall nm i ∉ (run_benchmark args benchmarks).2) ∧
    (∀ nm, b < nm → ∀ s, RunEvent.result nm s ∉ (run_benchmark args benchmarks).2) := by
  classical
  set filtered := benchmarks.filter (fun p => passes_filter p.1 args.exclude args.incl)
    with hfilt
  set items := sort_items filtered with hitems
  have hperm : items.Perm filtered := List.perm_insertionSort _ filtered
  have hmapfst : filtered.map Prod.fst
      = (benchmarks.map Prod.fst).filter (fun nm => passes_filter nm args.exclude args.incl) :=
    map_fst_filter (fun nm => passes_filter nm args.exclude args.incl) benchmarks
  have hrun : run_benchmark args benchmarks = run_items args.iterations items := rfl
  have hmemf : (b, fb) ∈ filtered := List.mem_filter.mpr ⟨hmem, hpass⟩
  have hmemi : (b, fb) ∈ items := hperm.mem_iff.mpr hmemf
  have hndi : (items.map Prod.fst).Nodup := by
    have h2 : (filtered.map Prod.fst).Nodup := by
      rw [hmapfst]; exact hnd.filter _
    exact ((hperm.map Prod.fst).nodup_iff).mpr h2
  obtain ⟨l1, l2, hsplit, hl1, hl2⟩ := sorted_nodup_split items b fb
    (List.sorted_insertionSort _ filtered) hndi hmemi
  have hl1ok : ∀ p ∈ l1, ∀ i, i < args.iterations → p.2 i = Except.ok (v p.1 i) := by
    intro p hp i hi
    have hpi : p ∈ items := hsplit ▸ List.mem_append_left _ hp
    have hpf : p ∈ filtered := hperm.mem_iff.mp hpi
    exact hprev p (List.mem_of_mem_filter hpf) (hl1 p hp)
      ((List.mem_filter.mp hpf).2) i hi
  have hfail : run_iters fb b 0 args.iterations =
      (Except.error e, (List.range (j + 1)).map (RunEvent.engineCall b)) := by
    have h := run_iters_fail fb b e args.iterations j 0
      (fun i hi => ⟨v b i, by simpa using hfb_ok i hi⟩)
      (by simpa using hfb_err) hj
    rwa [← List.range_eq_range'] at h
  have hrest : run_items args.iterations ((b, fb) :: l2)
      = (Except.error e, (List.range (j + 1)).map (RunEvent.engineCall b)) := by
    simp [run_items, hfail]
  have happ := run_items_append_ok args.iterations v l1 ((b, fb) :: l2) hl1ok
  have htot : run_benchmark args benchmarks
      = (Except.error e,
         l1.flatMap (fun p => (List.range args.iterations).map (RunEvent.engineCall p.1)
           ++ [RunEvent.result p.1 ((List.range args.iterations).map (v p.1))])
         ++ (List.range (j + 1)).map (RunEvent.engineCall b)) := by
    rw [hrun, hsplit, happ, hrest]
  refine ⟨by rw [htot], ?_, ?_, ?_⟩
  · intro s hmem'
    rw [htot] at hmem'
    rcases List.mem_append.mp hmem' with h | h
    · obtain ⟨p, hp, hin⟩ := List.mem_flatMap.mp h
      rcases List.mem_append.mp hin with h2 | h2
      · obtain ⟨i, _, h3⟩ := List.mem_map.mp h2
        exact RunEvent.noConfusion h3
      · have h3 := List.mem_singleton.mp h2
        have hb : b = p.1 := by injection h3
        exact absurd (hl1 p hp) (by rw [← hb]; exact lt_irrefl b)
    · obtain ⟨i, _, h3⟩ := List.mem_map.mp h
      exact RunEvent.noConfusion h3
  · intro nm hlt i hmem'
    rw [htot] at hmem'
    rcases List.mem_append.mp hmem' with h | h
    · obtain ⟨p, hp, hin⟩ := List.mem_flatMap.mp h
      rcases List.mem_append.mp hin with h2 | h2
      · obtain ⟨i', _, h3⟩ := List.mem_map.mp h2
        have hnm : p.1 = nm := by injection h3
        exact absurd (hl1 p hp) (by rw [hnm]; exact not_lt_of_gt hlt)
      · have h3 := List.mem_singleton.mp h2
        exact RunEvent.noConfusion h3
    · obtain ⟨i', _, h3⟩ := List.mem_map.mp h
      have hnm : b = nm := by injection h3
      exact absurd hlt (by rw [← hnm]; exact lt_irrefl b)
  · intro nm hlt s hmem'
    rw [htot] at hmem'
    rcases List.mem_append.mp hmem' with h | h
    · obtain ⟨p, hp, hin⟩ := List.mem_flatMap.mp h
      rcases List.mem_append.mp hin with h2 | h2
      · obtain ⟨i', _, h3⟩ := List.mem_map.mp h2
        exact RunEvent.noConfusion h3
      · have h3 := List.mem_singleton.mp h2
        have hnm : nm = p.1 := by injection h3
        exact absurd (hl1 p hp) (by rw [← hnm]; exact not_lt_of_gt hlt)
    · obtain ⟨i', _, h3⟩ := List.mem_map.mp h
      exact RunEvent.noConfusion h3

/-- An engine that succeeds on its first call and fails on its second. -/
def failSecondEngine : Engine :=
  fun i => if i == 0 then Except.ok sampleStats else Except.error "boom"

/-- Registry in which the second sorted benchmark fails. -/
def suiteAFail : BenchmarkMap := [("a", okEngine), ("b", failSecondEngine)]

/-- Witness for C8: benchmark `b` of `suiteAFail` fails on iteration 1 of
2; the run aborts with that error, emits no result for `b` and touches no
later-named benchmark. -/
theorem run_benchmark_failure_aborts_witness :
    (run_benchmark args2 suiteAFail).1 = Except.error "boom" ∧
    (∀ s, RunEvent.result "b" s ∉ (run_benchmark args2 suiteAFail).2) ∧
    (∀ nm, "b" < nm → ∀ i, RunEvent.engineCall nm i ∉ (run_benchmark args2 suiteAFail).2) ∧
    (∀ nm, "b" < nm → ∀ s, RunEvent.result nm s ∉ (run_benchmark args2 suiteAFail).2) :=
  run_benchmark_failure_aborts args2 suiteAFail (fun _ _ => sampleStats)
    "b" failSecondEngine 1 "boom"
    (by decide)
    (List.mem_cons_of_mem _ (List.mem_cons_self _ _))
    rfl
    (by decide)
    (fun i hi => by
      have h0 : i = 0 := by omega
      subst h0; rfl)
    rfl
    (by
      intro p hp hlt hpf i hi
      simp only [suiteAFail, List.mem_cons, List.not_mem_nil, or_false] at hp
      rcases hp with rfl | rfl
      · rfl
      · exact absurd hlt (lt_irrefl _))

/-- C3: `passes_filter` returns true when both flags are absent; the
include-prefix test when only include is given; the negated exclude-prefix
test when only exclude is given; and the conjunction (include prefix AND NOT
exclude prefix) when both are given — in particular a name matching both
prefixes is rejected. Matching is `String.startsWith`, i.e. literal prefix
match with no normalization. -/
theorem passes_filter_spec (name exclude incl : String) :
    Benchlib.passes_filter name none none = true ∧
    Benchlib.passes_filter name none (some incl) = name.startsWith incl ∧
    Benchlib.passes_filter name (some exclude) none = !(name.startsWith exclude) ∧
    Benchlib.passes_filter name (some exclude) (some incl)
      = (name.startsWith incl && !(name.startsWith exclude)) := by
  refine ⟨rfl, rfl, rfl, rfl⟩

/-- C10: the optimization barrier is the identity on values: `black_box v`
returns exactly `v`, while its effect trace shows it performed a volatile
read and suppressed the argument's automatic cleanup. -/
theorem black_box_identity {α : Type} (v : α) :
    (Benchlib.black_box v).1 = v ∧
    (Benchlib.black_box v).2 = [Benchlib.MemEffect.volatileRead, Benchlib.MemEffect.forgetDrop] := by
  exact ⟨rfl, rfl⟩
